import Mathlib

/-!
Shallow embedding of the coordinate-partitioning and metric-extraction core
of bcbio.variation's exploratory python scripts:

* `src/python/pull_tps_fps.py`   — `_get_coords`, `read_validation`,
  `write_vcf_subsets`, `write_incorrect_train`
* `src/python/identify_fns.py`   — `report_matches`
* `src/python/explore_val_classification.py` — `_calc_dp`, `_calc_ad`, `_calc_pl`
* `src/python/freebayes_filtering.py` — `strand_bias`, `percent_ad_deviation`

Lines of the line-oriented input files are modelled as `List Char`; python
floats are modelled as exact rationals; a python function that can either
return a value, return `None`, or raise an uncaught exception is modelled
with the three-valued result type `MRes` (value / missing / error).  Whole
passes that can raise (e.g. an `IndexError` from `_get_coords` on a line
with fewer than two tab-separated fields) return `Option`, with `none` for
an aborted pass.
-/

namespace BcbioVariation

/-- Result of one python metric computation: a numeric value, python's
`None` ("missing"), or an uncaught exception ("error"). -/
inductive MRes where
  | val (q : ℚ)
  | missing
  | err
  deriving DecidableEq, Repr

/-- One line of a line-oriented variant file, as a character list. -/
abbrev Line := List Char

/-- A (chromosome, position) pair, both kept as the raw tab-separated
fields, exactly as `_get_coords` returns them. -/
abbrev Coord := Line × Line

/-- Auxiliary splitter: python's `line.split("\t")`, accumulator style. -/
def splitTabAux : List Char → List Char → List (List Char)
  | [], acc => [acc.reverse]
  | c :: rest, acc =>
      if c = '\t' then acc.reverse :: splitTabAux rest []
      else splitTabAux rest (c :: acc)

/-- Python `line.split("\t")`: split a line at every tab character. -/
def splitTab (l : Line) : List (List Char) := splitTabAux l []

/-- Embeds `_get_coords` (pull_tps_fps.py line 37, identify_fns.py line 55):
`parts = line.split("\t"); return (parts[0], parts[1])`.  `parts[1]` raises
`IndexError` when the line has no tab, hence the `Option`. -/
def getCoords (l : Line) : Option Coord :=
  match splitTab l with
  | p0 :: p1 :: _ => some (p0, p1)
  | _ => none

/-- Python `line.startswith("#")`. -/
def startsHash : Line → Bool
  | '#' :: _ => true
  | _ => false

/-- Python `line.rstrip()`: drop trailing whitespace. -/
def rstrip (l : Line) : Line := (l.reverse.dropWhile Char.isWhitespace).reverse

/-- Python `line.rstrip().endswith("0")` (pull_tps_fps.py line 64): true
iff the last non-whitespace character of the line is the character `0`. -/
def endsZero (l : Line) : Bool :=
  match l.reverse.dropWhile Char.isWhitespace with
  | '0' :: _ => true
  | _ => false

/-- Modelled from the spec: the spec's phrase "a line ending in token `0`"
reads the *terminal tab-separated token* of the (whitespace-stripped) line
and compares it with the one-character string `"0"`.  Kept separate from
`endsZero`, the code's actual last-character test, so the two readings can
be compared. -/
def lastTokenIsZero (l : Line) : Bool :=
  match (splitTab (rstrip l)).getLast? with
  | some t => t = ['0']
  | none => false

/-- The two validated truth-coordinate sets, keyed like the python dict
`{"tp": tp_coords, "fp": fp_coords}` built in `main`. -/
structure TruthSets where
  tp : Finset Coord
  fp : Finset Coord
  deriving DecidableEq

/-- Embeds `read_validation` (pull_tps_fps.py lines 60-68): skip `#` lines;
a remaining line whose rstripped text ends in the character `0` contributes
its coordinate to the false-positive set, any other line to the
true-positive set.  `none` models the `IndexError` escape of `_get_coords`
on a malformed line. -/
def readValidation : List Line → Option (Finset Coord × Finset Coord)
  | [] => some (∅, ∅)
  | line :: rest =>
      if startsHash line then readValidation rest
      else
        match getCoords line with
        | none => none
        | some co =>
            match readValidation rest with
            | none => none
            | some (tpc, fpc) =>
                if endsZero line then some (tpc, insert co fpc)
                else some (insert co tpc, fpc)

/-- Embeds `write_vcf_subsets` (pull_tps_fps.py lines 49-58) with the truth
sets threaded explicitly: header lines go to both output streams, a data
line is written to each stream whose truth set contains its coordinate.
The source never mutates `coords`, so the threaded state passes through
every step unchanged and is returned as the residual sets of the pass. -/
def writeVcfSubsets (c : TruthSets) : List Line → Option (List Line × List Line × TruthSets)
  | [] => some ([], [], c)
  | line :: rest =>
      if startsHash line then
        match writeVcfSubsets c rest with
        | none => none
        | some (t, f, c2) => some (line :: t, line :: f, c2)
      else
        match getCoords line with
        | none => none
        | some co =>
            match writeVcfSubsets c rest with
            | none => none
            | some (t, f, c2) =>
                some ((if co ∈ c.tp then line :: t else t),
                      (if co ∈ c.fp then line :: f else f), c2)

/-- Embeds `write_incorrect_train` (pull_tps_fps.py lines 41-47) with the
truth set threaded explicitly: header lines are copied, a data line is
written iff its coordinate lies in the given (opposite-label) set.  The
source performs no `remove`, so the set passes through unchanged. -/
def writeIncorrectTrain (coords : Finset Coord) : List Line → Option (List Line × Finset Coord)
  | [] => some ([], coords)
  | line :: rest =>
      if startsHash line then
        match writeIncorrectTrain coords rest with
        | none => none
        | some (out, c2) => some (line :: out, c2)
      else
        match getCoords line with
        | none => none
        | some co =>
            match writeIncorrectTrain coords rest with
            | none => none
            | some (out, c2) =>
                some ((if co ∈ coords then line :: out else out), c2)

/-- Embeds `report_matches` (identify_fns.py lines 59-68): header lines are
copied; a data line whose coordinate is in the set is written and the
coordinate is removed (`coords.remove(cur_coords)`); other data lines are
dropped.  Returns the written lines and the residual set. -/
def reportMatches (coords : Finset Coord) : List Line → Option (List Line × Finset Coord)
  | [] => some ([], coords)
  | line :: rest =>
      if startsHash line then
        match reportMatches coords rest with
        | none => none
        | some (out, c2) => some (line :: out, c2)
      else
        match getCoords line with
        | none => none
        | some co =>
            if co ∈ coords then
              match reportMatches (coords.erase co) rest with
              | none => none
              | some (out, c2) => some (line :: out, c2)
            else reportMatches coords rest

/-- Per-sample call data as read by `explore_val_classification.py` through
PyVCF: `rec.samples[0].data` with a genotype string and optional `AD`,
`PL`, `DP` format fields (`hasattr` is the presence test, hence `Option`).
`AD` is kept as the raw list that `want, other = data.AD` unpacks. -/
structure CallData where
  GT : String
  AD : Option (List ℚ)
  PL : Option (List ℚ)
  DP : Option ℚ
  deriving DecidableEq

/-- Embeds `_calc_dp` (explore_val_classification.py lines 244-246): return
the `DP` field when present, else fall through to `None`. -/
def calcDp (d : CallData) : MRes :=
  match d.DP with
  | some v => .val v
  | none => .missing

/-- Embeds `_calc_ad` (explore_val_classification.py lines 248-264).
Genotype selects `(want, other)` from the allele-depth pair and the target
ratio (1 for homozygous branches, 1/2 for `0/1`); the result is
`target - want / (want + other)` when `want + other > 0`, else `None`.
An unrecognised genotype prints a warning and returns `None`: the
`raise ValueError` on the following line is unreachable.  Unpacking a
non-pair `AD` raises (`err`). -/
def calcAd (d : CallData) : MRes :=
  match d.AD with
  | none => .missing
  | some ad =>
      if d.GT = "0" ∨ d.GT = "0/0" then
        match ad with
        | [want, other] =>
            if 0 < want + other then .val (1 - want / (want + other)) else .missing
        | _ => .err
      else if d.GT = "1" ∨ d.GT = "1/1" then
        match ad with
        | [other, want] =>
            if 0 < want + other then .val (1 - want / (want + other)) else .missing
        | _ => .err
      else if d.GT = "0/1" then
        match ad with
        | [want, other] =>
            if 0 < want + other then .val (1/2 - want / (want + other)) else .missing
        | _ => .err
      else .missing

/-- Minimum of the strictly positive entries of a list, python's
`min(x for x in pl if x > 0)`: `none` models the `ValueError` that `min`
raises on an empty sequence. -/
def listMinPos (l : List ℚ) : Option ℚ :=
  match l.filter (fun x => decide (0 < x)) with
  | [] => none
  | x :: xs => some (xs.foldl min x)

/-- Embeds `_calc_pl` (explore_val_classification.py lines 266-273):
`PL[-1] / 10` when the genotype string is exactly `"0"`, `PL[0] / 10` when
it is exactly `"1"`, otherwise the minimum strictly positive entry divided
by 10; `None` when the `PL` field is absent.  Indexing an empty list and
`min` of an empty sequence raise (`err`). -/
def calcPl (d : CallData) : MRes :=
  match d.PL with
  | none => .missing
  | some pl =>
      if d.GT = "0" then
        match pl.getLast? with
        | some v => .val (v / 10)
        | none => .err
      else if d.GT = "1" then
        match pl.head? with
        | some v => .val (v / 10)
        | none => .err
      else
        match listMinPos pl with
        | some m => .val (m / 10)
        | none => .err

/-- A FreeBayes format-field value that may be a scalar or a per-allele
list, as tested by `isinstance(..., list)` in freebayes_filtering.py. -/
inductive FBVal where
  | scalar (q : ℚ)
  | list (l : List ℚ)
  deriving DecidableEq

/-- Per-sample call data as read by `freebayes_filtering.py`:
`rec.samples[0].data` with fields accessed directly (no `hasattr` guard),
so an absent field is an `AttributeError`. -/
structure FBData where
  GT : Option String
  DP : Option ℚ
  AO : Option FBVal
  QR : Option FBVal
  QA : Option FBVal
  deriving DecidableEq

/-- Python `sum(v) if isinstance(v, list) else v`, used for the alternate
observation count. -/
def sumOrSelf : FBVal → ℚ
  | .scalar q => q
  | .list l => l.sum

/-- The guarded per-base quality of `strand_bias`: when the count is
positive, a list field is summed and a scalar field divided by the count
(an absent field is only touched — and only raises — in that branch);
when the count is not positive the quality defaults to 0. -/
def perQual (field : Option FBVal) (count : ℚ) : Except Unit ℚ :=
  if 0 < count then
    match field with
    | none => .error ()
    | some (.list l) => .ok l.sum
    | some (.scalar q) => .ok (q / count)
  else .ok 0

/-- Embeds `strand_bias` (freebayes_filtering.py lines 116-130):
`altc = sum-or-self of AO`, `refc = DP - altc`, per-base qualities via the
guarded `perQual`, and final score `(qr - qa) / max(qr, qa) * 100`.  The
final division is *not* guarded: `max(qr, qa) = 0` is a
`ZeroDivisionError` (`err`), as is an absent accessed field. -/
def strandBias (d : FBData) : MRes :=
  match d.AO, d.DP with
  | some ao, some dp =>
      let altc := sumOrSelf ao
      let refc := dp - altc
      match perQual d.QR refc, perQual d.QA altc with
      | .ok qr, .ok qa =>
          if max qr qa = 0 then .err
          else .val ((qr - qa) / max qr qa * 100)
      | _, _ => .err
  | _, _ => .err

/-- Embeds `percent_ad_deviation` (freebayes_filtering.py lines 132-136):
`|expected - altc / (altc + refc)|` with `expected = 1/2` for genotype
`"0/1"` and `1` otherwise; `altc + refc` equals `DP`, and a zero total is
an unguarded `ZeroDivisionError` (`err`), as is an absent field. -/
def percentAdDeviation (d : FBData) : MRes :=
  match d.AO, d.DP, d.GT with
  | some ao, some dp, some gt =>
      let altc := sumOrSelf ao
      let refc := dp - altc
      if altc + refc = 0 then .err
      else .val |(if gt = "0/1" then (1 : ℚ)/2 else 1) - altc / (altc + refc)|
  | _, _, _ => .err

/-! Concrete inputs used by the witness and counterexample theorems. -/

/-- A header line, copied verbatim by every pass. -/
def exHeader : Line := ("#CHROM\tPOS").data

/-- A data line at coordinate (chr1, 100). -/
def exLine100 : Line := ("chr1\t100\tx").data

/-- A data line at coordinate (chr1, 200). -/
def exLine200 : Line := ("chr1\t200\ty").data

/-- The coordinate of `exLine100`. -/
def exCoord100 : Coord := (("chr1").data, ("100").data)

/-- The coordinate of `exLine200`. -/
def exCoord200 : Coord := (("chr1").data, ("200").data)

/-- A validated-call line whose terminal token is `1` (true positive). -/
def exValTp : Line := ("chr1\t100\tx\t1\n").data

/-- A validated-call line whose terminal token is `0` (false positive). -/
def exValFp : Line := ("chr1\t200\ty\t0\n").data

/-- A validated-call line whose terminal token is `10`: not the token `0`,
but it still ends in the character `0`. -/
def exValTen : Line := ("chr1\t100\tx\t10\n").data

/-- Truth sets with (chr1, 100) as the only true-positive coordinate. -/
def exTruth : TruthSets := ⟨{exCoord100}, ∅⟩

/-- Truth sets with (chr1, 100) true-positive and (chr1, 200)
false-positive. -/
def exTruth2 : TruthSets := ⟨{exCoord100}, {exCoord200}⟩

/-- A FreeBayes record with zero depth and zero alternate count: both
per-base qualities default to 0. -/
def exFBzero : FBData :=
  ⟨some "0/1", some 0, some (.scalar 0), some (.scalar 5), some (.scalar 5)⟩

/-- A FreeBayes record with depth 10 and alternate count 4. -/
def exFBten : FBData :=
  ⟨some "0/1", some 10, some (.scalar 4), some (.scalar 7), some (.scalar 9)⟩

/-- A FreeBayes record whose `AO` format field is absent. -/
def exFBnoAO : FBData :=
  ⟨some "0/1", some 10, none, some (.scalar 5), some (.scalar 5)⟩

/-! Metric-extractor theorems. -/

/-- Claim C5: with an allele-depth pair present, `_calc_ad` selects
`(want, other)` and the target ratio by genotype — `"0"`/`"0/0"` take
`(ref, alt)` with target 1, `"1"`/`"1/1"` swap to `(alt, ref)` with
target 1, `"0/1"` takes `(ref, alt)` with target 1/2 — and returns
`target - want / (want + other)` when `want + other > 0`, else missing. -/
theorem calcAd_genotype_selection (d : CallData) (a1 a2 : ℚ)
    (hAD : d.AD = some [a1, a2]) :
    ((d.GT = "0" ∨ d.GT = "0/0") →
      calcAd d = if 0 < a1 + a2 then .val (1 - a1 / (a1 + a2)) else .missing) ∧
    ((d.GT = "1" ∨ d.GT = "1/1") →
      calcAd d = if 0 < a1 + a2 then .val (1 - a2 / (a1 + a2)) else .missing) ∧
    (d.GT = "0/1" →
      calcAd d = if 0 < a1 + a2 then .val (1/2 - a1 / (a1 + a2)) else .missing) := by
  refine ⟨fun h => ?_, fun h => ?_, fun h => ?_⟩
  · rcases h with h | h <;> simp [calcAd, hAD, h]
  · rcases h with h | h <;>
      · simp [calcAd, hAD, h]
        rw [add_comm a2 a1]
  · simp [calcAd, hAD, h]

/-- Claim C5 witness: scenario B, genotype `"0/0"` with allele depth
`(8, 2)` gives deviation 1/5 = 0.2; scenario C, genotype `"0/1"` with
`(5, 5)` gives deviation 0. -/
theorem calcAd_genotype_selection_witness :
    calcAd ⟨"0/0", some [8, 2], none, none⟩ = .val (1/5) ∧
    calcAd ⟨"0/1", some [5, 5], none, none⟩ = .val 0 := by
  have hB := (calcAd_genotype_selection ⟨"0/0", some [8, 2], none, none⟩ 8 2 rfl).1
    (Or.inr rfl)
  have hC := (calcAd_genotype_selection ⟨"0/1", some [5, 5], none, none⟩ 5 5 rfl).2.2 rfl
  constructor
  · rw [hB, if_pos (by norm_num)]
    norm_num
  · rw [hC, if_pos (by norm_num)]
    norm_num

/-- Claim C3 counterexample: on the unrecognised genotype `"2/2"` with an
allele-depth pair present, `_calc_ad` returns the missing value `None`
(the `raise ValueError` on the line after `return None` is unreachable),
so the computation does not end in a raised `UnsupportedGenotype`-style
error. -/
theorem calcAd_unsupported_cex :
    calcAd ⟨"2/2", some [8, 2], none, none⟩ = .missing ∧
    MRes.missing ≠ MRes.err := by
  exact ⟨by simp [calcAd], by simp⟩

/-- Claim C3 amended: for every call block whose genotype string is outside
the recognised set, `_calc_ad` prints a warning and returns the missing
value `None`; no exception is raised because the `raise ValueError`
statement sits after the `return`. -/
theorem calcAd_unsupported_missing (d : CallData) (ad : List ℚ)
    (hAD : d.AD = some ad) (h0 : d.GT ≠ "0") (h00 : d.GT ≠ "0/0")
    (h1 : d.GT ≠ "1") (h11 : d.GT ≠ "1/1") (h01 : d.GT ≠ "0/1") :
    calcAd d = .missing := by
  simp [calcAd, hAD, h0, h00, h1, h11, h01]

/-- Claim C3 amended witness: the genotype `"2/2"` of the spec's own
example takes the unsupported branch and yields missing. -/
theorem calcAd_unsupported_missing_witness :
    calcAd ⟨"2/2", some [8, 2], none, none⟩ = .missing :=
  calcAd_unsupported_missing ⟨"2/2", some [8, 2], none, none⟩ [8, 2] rfl
    (by decide) (by decide) (by decide) (by decide) (by decide)

/-- Claim C6 counterexample: `_calc_pl` compares the genotype with the
exact strings `"0"` and `"1"`, so the diploid homozygous-reference
genotype `"0/0"` with likelihoods `[0, 30, 60]` falls into the
minimum-positive branch and yields 3, not `likelihood[last] / 10 = 6` as
the claim requires for a homozygous-reference genotype. -/
theorem calcPl_homref_diploid_cex :
    calcPl ⟨"0/0", none, some [0, 30, 60], none⟩ = .val 3 ∧
    MRes.val 3 ≠ MRes.val ((60 : ℚ) / 10) := by
  constructor
  · simp [calcPl, listMinPos]
    norm_num
  · simp only [ne_eq, MRes.val.injEq]
    norm_num

/-- Claim C6 amended: with a likelihood list present, `_calc_pl` returns
`likelihood[last] / 10` exactly when the genotype string is `"0"`,
`likelihood[0] / 10` exactly when it is `"1"`, and for every other
genotype string (including the diploid `"0/0"` and `"1/1"`) the minimum
strictly positive likelihood divided by 10; it returns missing when the
likelihood field is absent. -/
theorem calcPl_exact_genotype (d : CallData) :
    (d.PL = none → calcPl d = .missing) ∧
    (∀ pl, d.PL = some pl →
      (d.GT = "0" → ∀ v, pl.getLast? = some v → calcPl d = .val (v / 10)) ∧
      (d.GT = "1" → ∀ v, pl.head? = some v → calcPl d = .val (v / 10)) ∧
      (d.GT ≠ "0" → d.GT ≠ "1" → ∀ m, listMinPos pl = some m →
        calcPl d = .val (m / 10))) := by
  constructor
  · intro h
    simp [calcPl, h]
  · intro pl hPL
    refine ⟨fun hGT v hv => ?_, fun hGT v hv => ?_, fun h0 h1 m hm => ?_⟩
    · simp [calcPl, hPL, hGT, hv]
    · simp [calcPl, hPL, hGT, hv]
    · simp [calcPl, hPL, h0, h1, hm]

/-- Claim C6 amended witness: genotype `"0"` with likelihoods
`[10, 20, 30]` yields `30 / 10 = 3`. -/
theorem calcPl_exact_genotype_witness :
    calcPl ⟨"0", none, some [10, 20, 30], none⟩ = .val 3 := by
  have h := ((calcPl_exact_genotype ⟨"0", none, some [10, 20, 30], none⟩).2
    [10, 20, 30] rfl).1 rfl 30 rfl
  rw [h]
  norm_num

/-- Claim C10: for a call block whose genotype is neither `"0"` nor `"1"`
and whose likelihood list is present but has no strictly positive entry,
`_calc_pl` raises (python's `min` of an empty sequence) instead of
returning a numeric or missing value. -/
theorem calcPl_no_positive_err (d : CallData) (pl : List ℚ) (h0 : d.GT ≠ "0")
    (h1 : d.GT ≠ "1") (hPL : d.PL = some pl) (hpos : ∀ x ∈ pl, x ≤ 0) :
    calcPl d = .err := by
  have hfil : pl.filter (fun x => decide (0 < x)) = [] := by
    refine List.filter_eq_nil_iff.mpr fun a ha => ?_
    simpa using not_lt.mpr (hpos a ha)
  simp [calcPl, hPL, h0, h1, listMinPos, hfil]

/-- Claim C10 witness: genotype `"0/1"` with the all-zero likelihood list
`[0, 0, 0]` ends in an error. -/
theorem calcPl_no_positive_err_witness :
    calcPl ⟨"0/1", none, some [0, 0, 0], none⟩ = .err :=
  calcPl_no_positive_err ⟨"0/1", none, some [0, 0, 0], none⟩ [0, 0, 0]
    (by decide) (by decide) rfl (by norm_num)

/-- Claim C7 counterexample: a FreeBayes record with zero depth and zero
alternate count drives both per-base qualities to the guarded default 0,
and then `strand_bias` hits the unguarded final division
`(qr - qa) / max(qr, qa)` and raises `ZeroDivisionError` instead of
evaluating to 0 as the claim requires. -/
theorem strandBias_zero_zero_cex :
    strandBias exFBzero = .err ∧ MRes.err ≠ MRes.val 0 := by
  exact ⟨by simp [strandBias, exFBzero, perQual, sumOrSelf], by simp⟩

/-- Claim C7 amended: in `strand_bias` only the two per-count divisions are
guarded (a non-positive count defaults that quality to 0); the final
division is not, so whenever both computed per-base qualities are 0 the
function raises rather than returning 0.  `percent_ad_deviation` is
likewise unguarded: it raises exactly when the total depth is 0 and
otherwise returns `|expected - altc / DP|`. -/
theorem strandBias_division_guards :
    (∀ (d : FBData) (ao : FBVal) (dp : ℚ), d.AO = some ao → d.DP = some dp →
      perQual d.QR (dp - sumOrSelf ao) = .ok 0 →
      perQual d.QA (sumOrSelf ao) = .ok 0 → strandBias d = .err) ∧
    (∀ (d : FBData) (ao : FBVal) (dp : ℚ) (gt : String), d.AO = some ao →
      d.DP = some dp → d.GT = some gt → dp = 0 → percentAdDeviation d = .err) ∧
    (∀ (d : FBData) (ao : FBVal) (dp : ℚ) (gt : String), d.AO = some ao →
      d.DP = some dp → d.GT = some gt → dp ≠ 0 →
      percentAdDeviation d =
        .val |(if gt = "0/1" then (1 : ℚ)/2 else 1) - sumOrSelf ao / dp|) := by
  have hsum : ∀ (x dp : ℚ), x + (dp - x) = dp := fun x dp => by ring
  refine ⟨fun d ao dp hao hdp hqr hqa => ?_, fun d ao dp gt hao hdp hgt h0 => ?_,
    fun d ao dp gt hao hdp hgt h0 => ?_⟩
  · simp [strandBias, hao, hdp, hqr, hqa]
  · simp [percentAdDeviation, hao, hdp, hgt, hsum, h0]
  · simp [percentAdDeviation, hao, hdp, hgt, hsum, h0]

/-- Claim C7 amended witness: `exFBzero` (both qualities 0) raises in both
metrics, while `exFBten` (depth 10, alternate count 4, heterozygous)
yields the defined deviation `|1/2 - 4/10| = 1/10`. -/
theorem strandBias_division_guards_witness :
    strandBias exFBzero = .err ∧ percentAdDeviation exFBzero = .err ∧
    percentAdDeviation exFBten = .val (1/10) := by
  refine ⟨?_, ?_, ?_⟩
  · exact strandBias_division_guards.1 exFBzero (.scalar 0) 0 rfl rfl
      (by simp [perQual, exFBzero, sumOrSelf]) (by simp [perQual, exFBzero, sumOrSelf])
  · exact strandBias_division_guards.2.1 exFBzero (.scalar 0) 0 "0/1" rfl rfl rfl rfl
  · have h := strandBias_division_guards.2.2 exFBten (.scalar 4) 10 "0/1" rfl rfl rfl
      (by norm_num)
    rw [h]
    simp [sumOrSelf]
    rw [abs_of_nonneg (by norm_num)]
    norm_num

/-- Claim C8 counterexample: `strand_bias` reads `data.AO` without a
`hasattr` guard, so a record whose `AO` format field is absent raises
`AttributeError` instead of yielding a missing value. -/
theorem strandBias_missing_field_cex :
    strandBias exFBnoAO = .err ∧ MRes.err ≠ MRes.missing := by
  exact ⟨by simp [strandBias, exFBnoAO], by simp⟩

/-- Claim C8 amended: the explore_val_classification metric functions
tolerate an absent format field — `_calc_dp`, `_calc_ad`, `_calc_pl`
return missing when `DP`, `AD`, `PL` respectively are absent, and each
depends only on its own field (plus the genotype), so the other metrics
keep their values — but the freebayes_filtering metrics `strand_bias` and
`percent_ad_deviation` access their fields unguarded and fail on a record
whose `AO` field is absent. -/
theorem metric_missing_field_tolerance :
    (∀ d : CallData, d.DP = none → calcDp d = .missing) ∧
    (∀ d : CallData, d.AD = none → calcAd d = .missing) ∧
    (∀ d : CallData, d.PL = none → calcPl d = .missing) ∧
    (∀ d d' : CallData, d.DP = d'.DP → calcDp d = calcDp d') ∧
    (∀ d d' : CallData, d.GT = d'.GT → d.AD = d'.AD → calcAd d = calcAd d') ∧
    (∀ d d' : CallData, d.GT = d'.GT → d.PL = d'.PL → calcPl d = calcPl d') ∧
    (∀ d : FBData, d.AO = none →
      strandBias d = .err ∧ percentAdDeviation d = .err) := by
  refine ⟨fun d h => by simp [calcDp, h], fun d h => by simp [calcAd, h],
    fun d h => by simp [calcPl, h], fun d d' h => by simp [calcDp, h],
    fun d d' h1 h2 => by simp [calcAd, h1, h2],
    fun d d' h1 h2 => by simp [calcPl, h1, h2],
    fun d h => ⟨by simp [strandBias, h], by simp [percentAdDeviation, h]⟩⟩

/-- Claim C8 amended witness: concrete records lacking exactly one field
yield missing for the dependent metric, equal values under agreement of
the read fields, and an error for the unguarded FreeBayes metric. -/
theorem metric_missing_field_tolerance_witness :
    calcDp ⟨"0/1", some [5, 5], some [10, 0, 20], none⟩ = .missing ∧
    calcAd ⟨"0/1", none, some [10, 0, 20], some 7⟩ = .missing ∧
    calcPl ⟨"0/1", some [5, 5], none, some 7⟩ = .missing ∧
    calcAd ⟨"0/1", some [5, 5], none, none⟩ = calcAd ⟨"0/1", some [5, 5], some [1], some 3⟩ ∧
    strandBias exFBnoAO = .err := by
  have h := metric_missing_field_tolerance
  exact ⟨h.1 _ rfl, h.2.1 _ rfl, h.2.2.1 _ rfl,
    h.2.2.2.2.1 _ _ rfl rfl, (h.2.2.2.2.2.2 exFBnoAO rfl).1⟩

/-! Partitioning-pass theorems. -/

/-- Claim C2: under a successful pass, `write_vcf_subsets` writes every
data record whose coordinate is in a label's truth set to that label's
output stream, and every data record found in an output stream has its
coordinate in that label's truth set. -/
theorem writeVcfSubsets_partition (c : TruthSets) (lines t f : List Line)
    (c2 : TruthSets) (h : writeVcfSubsets c lines = some (t, f, c2)) :
    (∀ l ∈ lines, startsHash l = false → ∀ co, getCoords l = some co →
      (co ∈ c.tp → l ∈ t) ∧ (co ∈ c.fp → l ∈ f)) ∧
    (∀ l ∈ t, startsHash l = false → ∃ co, getCoords l = some co ∧ co ∈ c.tp) ∧
    (∀ l ∈ f, startsHash l = false → ∃ co, getCoords l = some co ∧ co ∈ c.fp) := by
  induction lines generalizing t f c2 with
  | nil =>
    simp only [writeVcfSubsets, Option.some.injEq, Prod.mk.injEq] at h
    obtain ⟨rfl, rfl, rfl⟩ := h
    exact ⟨by simp, by simp, by simp⟩
  | cons line rest ih =>
    cases hH : startsHash line with
    | true =>
      cases hrec : writeVcfSubsets c rest with
      | none => simp [writeVcfSubsets, hH, hrec] at h
      | some tf =>
        obtain ⟨t', f', c2'⟩ := tf
        simp only [writeVcfSubsets, hH, hrec, if_true, Option.some.injEq,
          Prod.mk.injEq] at h
        obtain ⟨rfl, rfl, rfl⟩ := h
        obtain ⟨ih1, ih2, ih3⟩ := ih t' f' c2' hrec
        refine ⟨fun l hl hns co hco => ?_, fun l hl hns => ?_, fun l hl hns => ?_⟩
        · rcases List.mem_cons.mp hl with rfl | hl'
          · rw [hns] at hH
            cases hH
          · exact ⟨fun hm => List.mem_cons_of_mem _ ((ih1 l hl' hns co hco).1 hm),
              fun hm => List.mem_cons_of_mem _ ((ih1 l hl' hns co hco).2 hm)⟩
        · rcases List.mem_cons.mp hl with rfl | hl'
          · rw [hns] at hH
            cases hH
          · exact ih2 l hl' hns
        · rcases List.mem_cons.mp hl with rfl | hl'
          · rw [hns] at hH
            cases hH
          · exact ih3 l hl' hns
    | false =>
      cases hco : getCoords line with
      | none => simp [writeVcfSubsets, hH, hco] at h
      | some co0 =>
        cases hrec : writeVcfSubsets c rest with
        | none => simp [writeVcfSubsets, hH, hco, hrec] at h
        | some tf =>
          obtain ⟨t', f', c2'⟩ := tf
          simp only [writeVcfSubsets, hH, hco, hrec, Bool.false_eq_true, if_false,
            Option.some.injEq, Prod.mk.injEq] at h
          obtain ⟨rfl, rfl, rfl⟩ := h
          obtain ⟨ih1, ih2, ih3⟩ := ih t' f' c2' hrec
          refine ⟨fun l hl hns co hco' => ?_, fun l hl hns => ?_, fun l hl hns => ?_⟩
          · rcases List.mem_cons.mp hl with rfl | hl'
            · rw [hco] at hco'
              obtain rfl := Option.some.inj hco'
              exact ⟨fun hm => by rw [if_pos hm]; exact List.mem_cons_self _ _,
                fun hm => by rw [if_pos hm]; exact List.mem_cons_self _ _⟩
            · refine ⟨fun hm => ?_, fun hm => ?_⟩
              · by_cases hmem : co0 ∈ c.tp
                · rw [if_pos hmem]
                  exact List.mem_cons_of_mem _ ((ih1 l hl' hns co hco').1 hm)
                · rw [if_neg hmem]
                  exact (ih1 l hl' hns co hco').1 hm
              · by_cases hmem : co0 ∈ c.fp
                · rw [if_pos hmem]
                  exact List.mem_cons_of_mem _ ((ih1 l hl' hns co hco').2 hm)
                · rw [if_neg hmem]
                  exact (ih1 l hl' hns co hco').2 hm
          · by_cases hmem : co0 ∈ c.tp
            · rw [if_pos hmem] at hl
              rcases List.mem_cons.mp hl with rfl | hl'
              · exact ⟨co0, hco, hmem⟩
              · exact ih2 l hl' hns
            · rw [if_neg hmem] at hl
              exact ih2 l hl hns
          · by_cases hmem : co0 ∈ c.fp
            · rw [if_pos hmem] at hl
              rcases List.mem_cons.mp hl with rfl | hl'
              · exact ⟨co0, hco, hmem⟩
              · exact ih3 l hl' hns
            · rw [if_neg hmem] at hl
              exact ih3 l hl hns

/-- Claim C2 witness: on scenario A's call set, the record at position 100
lands in the true-positive stream and the record at position 200 in the
false-positive stream. -/
theorem writeVcfSubsets_partition_witness :
    ∃ t f c2, writeVcfSubsets exTruth2 [exHeader, exLine100, exLine200] =
        some (t, f, c2) ∧ exLine100 ∈ t ∧ exLine200 ∈ f := by
  have hrun : writeVcfSubsets exTruth2 [exHeader, exLine100, exLine200] =
      some ([exHeader, exLine100], [exHeader, exLine200], exTruth2) := by decide
  have hp := writeVcfSubsets_partition exTruth2 [exHeader, exLine100, exLine200]
    _ _ _ hrun
  refine ⟨_, _, _, hrun, ?_, ?_⟩
  · exact (hp.1 exLine100 (by simp) (by decide) exCoord100 (by decide)).1 (by decide)
  · exact (hp.1 exLine200 (by simp) (by decide) exCoord200 (by decide)).2 (by decide)

/-- Claim C1 counterexample: `write_vcf_subsets` never removes a matched
coordinate, so after a pass that matches one record against a singleton
true-positive set the residual set still has size 1 and the claimed
conservation `|initial| = |matched| + |residual|` fails (1 is not 1 + 1). -/
theorem writeVcfSubsets_no_consumption_cex :
    writeVcfSubsets exTruth [exLine100] = some ([exLine100], [], exTruth) ∧
    ¬ exTruth.tp.card =
      (([exLine100] : List Line).filter (fun l => !startsHash l)).length +
        exTruth.tp.card := by
  decide

/-- Claim C1 amended: the consume-on-match conservation invariant belongs
to `report_matches` (identify_fns.py), not to `write_vcf_subsets`: for a
successful `report_matches` pass the residual set is contained in the
initial set and `|initial| = |written data records| + |residual|`, each
matched coordinate being consumed at most once; `write_vcf_subsets`
removes nothing, returning its truth sets unchanged. -/
theorem reportMatches_conservation :
    (∀ (coords : Finset Coord) (lines out : List Line) (c2 : Finset Coord),
      reportMatches coords lines = some (out, c2) →
      c2 ⊆ coords ∧
      coords.card = (out.filter (fun l => !startsHash l)).length + c2.card) ∧
    (∀ (c : TruthSets) (lines t f : List Line) (c2 : TruthSets),
      writeVcfSubsets c lines = some (t, f, c2) → c2 = c) := by
  constructor
  · intro coords lines
    induction lines generalizing coords with
    | nil =>
      intro out c2 h
      simp only [reportMatches, Option.some.injEq, Prod.mk.injEq] at h
      obtain ⟨rfl, rfl⟩ := h
      exact ⟨Finset.Subset.refl _, by simp⟩
    | cons line rest ih =>
      intro out c2 h
      cases hH : startsHash line with
      | true =>
        cases hrec : reportMatches coords rest with
        | none => simp [reportMatches, hH, hrec] at h
        | some oc =>
          obtain ⟨o', cc⟩ := oc
          simp only [reportMatches, hH, hrec, if_true, Option.some.injEq,
            Prod.mk.injEq] at h
          obtain ⟨rfl, rfl⟩ := h
          obtain ⟨hsub, hcard⟩ := ih coords o' cc hrec
          refine ⟨hsub, ?_⟩
          rw [List.filter_cons_of_neg (by simp [hH])]
          exact hcard
      | false =>
        cases hco : getCoords line with
        | none => simp [reportMatches, hH, hco] at h
        | some co0 =>
          by_cases hmem : co0 ∈ coords
          · cases hrec : reportMatches (coords.erase co0) rest with
            | none => simp [reportMatches, hH, hco, hmem, hrec] at h
            | some oc =>
              obtain ⟨o', cc⟩ := oc
              simp only [reportMatches, hH, hco, hmem, hrec, Bool.false_eq_true,
                if_false, if_true, Option.some.injEq, Prod.mk.injEq] at h
              obtain ⟨rfl, rfl⟩ := h
              obtain ⟨hsub, hcard⟩ := ih (coords.erase co0) o' cc hrec
              refine ⟨hsub.trans (Finset.erase_subset _ _), ?_⟩
              have hc1 : (coords.erase co0).card + 1 = coords.card :=
                Finset.card_erase_add_one hmem
              rw [List.filter_cons_of_pos (by simp [hH]), List.length_cons]
              omega
          · simp only [reportMatches, hH, hco, hmem, Bool.false_eq_true, if_false] at h
            exact ih coords out c2 h
  · intro c lines
    induction lines with
    | nil =>
      intro t f c2 h
      simp only [writeVcfSubsets, Option.some.injEq, Prod.mk.injEq] at h
      exact h.2.2.symm
    | cons line rest ih =>
      intro t f c2 h
      cases hH : startsHash line with
      | true =>
        cases hrec : writeVcfSubsets c rest with
        | none => simp [writeVcfSubsets, hH, hrec] at h
        | some tf =>
          obtain ⟨t', f', c2'⟩ := tf
          simp only [writeVcfSubsets, hH, hrec, if_true, Option.some.injEq,
            Prod.mk.injEq] at h
          obtain ⟨-, -, rfl⟩ := h
          exact ih t' f' _ hrec
      | false =>
        cases hco : getCoords line with
        | none => simp [writeVcfSubsets, hH, hco] at h
        | some co0 =>
          cases hrec : writeVcfSubsets c rest with
          | none => simp [writeVcfSubsets, hH, hco, hrec] at h
          | some tf =>
            obtain ⟨t', f', c2'⟩ := tf
            simp only [writeVcfSubsets, hH, hco, hrec, Bool.false_eq_true, if_false,
              Option.some.injEq, Prod.mk.injEq] at h
            obtain ⟨-, -, rfl⟩ := h
            exact ih t' f' _ hrec

/-- Claim C1 amended witness: a `report_matches` pass over a header and
one matching record consumes one of two truth coordinates, so
`2 = 1 + 1`; and a concrete `write_vcf_subsets` pass returns its truth
sets unchanged. -/
theorem reportMatches_conservation_witness :
    ({exCoord100, exCoord200} : Finset Coord).card =
      (([exHeader, exLine100] : List Line).filter (fun l => !startsHash l)).length +
        ({exCoord200} : Finset Coord).card ∧
    (exTruth : TruthSets) = exTruth := by
  have hrun : reportMatches {exCoord100, exCoord200} [exHeader, exLine100] =
      some ([exHeader, exLine100], {exCoord200}) := by decide
  have hrun2 : writeVcfSubsets exTruth [exLine100] =
      some ([exLine100], [], exTruth) := by decide
  exact ⟨(reportMatches_conservation.1 _ _ _ _ hrun).2,
    reportMatches_conservation.2 exTruth [exLine100] _ _ _ hrun2⟩

/-- Claim C9: under a successful pass, `write_incorrect_train` leaves the
opposite-label truth set unchanged and its output contains a data record
iff that record occurs in the input and its coordinate lies in the
opposite-label truth set. -/
theorem writeIncorrectTrain_readonly (coords : Finset Coord) (lines out : List Line)
    (c2 : Finset Coord) (h : writeIncorrectTrain coords lines = some (out, c2)) :
    c2 = coords ∧
    ∀ l, startsHash l = false →
      (l ∈ out ↔ l ∈ lines ∧ ∃ co, getCoords l = some co ∧ co ∈ coords) := by
  induction lines generalizing out c2 with
  | nil =>
    simp only [writeIncorrectTrain, Option.some.injEq, Prod.mk.injEq] at h
    obtain ⟨rfl, rfl⟩ := h
    exact ⟨rfl, by simp⟩
  | cons line rest ih =>
    cases hH : startsHash line with
    | true =>
      cases hrec : writeIncorrectTrain coords rest with
      | none => simp [writeIncorrectTrain, hH, hrec] at h
      | some oc =>
        obtain ⟨o', cc⟩ := oc
        simp only [writeIncorrectTrain, hH, hrec, if_true, Option.some.injEq,
          Prod.mk.injEq] at h
        obtain ⟨rfl, rfl⟩ := h
        obtain ⟨hcc, hiff⟩ := ih o' _ hrec
        refine ⟨hcc, fun l hns => ?_⟩
        constructor
        · intro hmem
          rcases List.mem_cons.mp hmem with rfl | hmem'
          · rw [hns] at hH
            cases hH
          · obtain ⟨hl, hcoex⟩ := (hiff l hns).mp hmem'
            exact ⟨List.mem_cons_of_mem _ hl, hcoex⟩
        · rintro ⟨hl, co, hco, hmemco⟩
          rcases List.mem_cons.mp hl with rfl | hl'
          · rw [hns] at hH
            cases hH
          · exact List.mem_cons_of_mem _ ((hiff l hns).mpr ⟨hl', co, hco, hmemco⟩)
    | false =>
      cases hco : getCoords line with
      | none => simp [writeIncorrectTrain, hH, hco] at h
      | some co0 =>
        cases hrec : writeIncorrectTrain coords rest with
        | none => simp [writeIncorrectTrain, hH, hco, hrec] at h
        | some oc =>
          obtain ⟨o', cc⟩ := oc
          simp only [writeIncorrectTrain, hH, hco, hrec, Bool.false_eq_true, if_false,
            Option.some.injEq, Prod.mk.injEq] at h
          obtain ⟨rfl, rfl⟩ := h
          obtain ⟨hcc, hiff⟩ := ih o' _ hrec
          refine ⟨hcc, fun l hns => ?_⟩
          by_cases hmem : co0 ∈ coords
          · rw [if_pos hmem]
            constructor
            · intro hlmem
              rcases List.mem_cons.mp hlmem with rfl | hl'
              · exact ⟨List.mem_cons_self _ _, co0, hco, hmem⟩
              · obtain ⟨ha, hb⟩ := (hiff l hns).mp hl'
                exact ⟨List.mem_cons_of_mem _ ha, hb⟩
            · rintro ⟨hl, co, hco', hmemco⟩
              rcases List.mem_cons.mp hl with rfl | hl'
              · exact List.mem_cons_self _ _
              · exact List.mem_cons_of_mem _ ((hiff l hns).mpr ⟨hl', co, hco', hmemco⟩)
          · rw [if_neg hmem]
            constructor
            · intro hl'
              obtain ⟨ha, hb⟩ := (hiff l hns).mp hl'
              exact ⟨List.mem_cons_of_mem _ ha, hb⟩
            · rintro ⟨hl, co, hco', hmemco⟩
              rcases List.mem_cons.mp hl with rfl | hl'
              · rw [hco] at hco'
                obtain rfl := Option.some.inj hco'
                exact absurd hmemco hmem
              · exact (hiff l hns).mpr ⟨hl', co, hco', hmemco⟩

/-- Claim C9 witness: against the true-positive coordinate set, the
candidate record at (chr1, 100) is emitted, the one at (chr1, 200) is
not, and the set comes back unchanged. -/
theorem writeIncorrectTrain_readonly_witness :
    ∃ out c2, writeIncorrectTrain {exCoord100} [exHeader, exLine100, exLine200] =
        some (out, c2) ∧ c2 = {exCoord100} ∧ exLine100 ∈ out ∧ exLine200 ∉ out := by
  have hrun : writeIncorrectTrain {exCoord100} [exHeader, exLine100, exLine200] =
      some ([exHeader, exLine100], {exCoord100}) := by decide
  have hr := writeIncorrectTrain_readonly _ _ _ _ hrun
  refine ⟨_, _, hrun, hr.1, ?_, ?_⟩
  · exact (hr.2 exLine100 (by decide)).mpr ⟨by simp, exCoord100, by decide, by decide⟩
  · intro hmem
    obtain ⟨-, co, hco, hmemco⟩ := (hr.2 exLine200 (by decide)).mp hmem
    have h2 : getCoords exLine200 = some exCoord200 := by decide
    rw [Option.some.inj (hco.symm.trans h2)] at hmemco
    exact absurd hmemco (by decide)

/-- Claim C4 counterexample: a validated line whose terminal token is
`"10"` — not the token `"0"` — still ends in the character `0`, so
`read_validation` routes its coordinate to the false-positive set,
contradicting the claim that only a terminal token `"0"` does so. -/
theorem readValidation_lastchar_cex :
    lastTokenIsZero exValTen = false ∧
    readValidation [exValTen] = some (∅, {exCoord100}) := by
  decide

/-- Claim C4 amended: `read_validation` assigns a non-comment line's
coordinate to the false-positive set exactly when the line, stripped of
trailing whitespace, ends in the character `0` (a last-character test,
not a terminal-token test), and to the true-positive set otherwise;
comment lines beginning with `#` contribute to neither set. -/
theorem readValidation_routing (lines : List Line) (tpc fpc : Finset Coord)
    (h : readValidation lines = some (tpc, fpc)) :
    (∀ co, co ∈ fpc ↔ ∃ l ∈ lines, startsHash l = false ∧
      getCoords l = some co ∧ endsZero l = true) ∧
    (∀ co, co ∈ tpc ↔ ∃ l ∈ lines, startsHash l = false ∧
      getCoords l = some co ∧ endsZero l = false) := by
  induction lines generalizing tpc fpc with
  | nil =>
    simp only [readValidation, Option.some.injEq, Prod.mk.injEq] at h
    obtain ⟨rfl, rfl⟩ := h
    simp
  | cons line rest ih =>
    cases hH : startsHash line with
    | true =>
      simp only [readValidation, hH, if_true] at h
      obtain ⟨h1, h2⟩ := ih _ _ h
      refine ⟨fun co => ?_, fun co => ?_⟩
      · rw [h1 co]
        constructor
        · rintro ⟨l, hl, hp⟩
          exact ⟨l, List.mem_cons_of_mem _ hl, hp⟩
        · rintro ⟨l, hl, hns, hco, hz⟩
          rcases List.mem_cons.mp hl with rfl | hl'
          · rw [hns] at hH
            cases hH
          · exact ⟨l, hl', hns, hco, hz⟩
      · rw [h2 co]
        constructor
        · rintro ⟨l, hl, hp⟩
          exact ⟨l, List.mem_cons_of_mem _ hl, hp⟩
        · rintro ⟨l, hl, hns, hco, hz⟩
          rcases List.mem_cons.mp hl with rfl | hl'
          · rw [hns] at hH
            cases hH
          · exact ⟨l, hl', hns, hco, hz⟩
    | false =>
      cases hco : getCoords line with
      | none => simp [readValidation, hH, hco] at h
      | some co0 =>
        cases hrec : readValidation rest with
        | none => simp [readValidation, hH, hco, hrec] at h
        | some tf =>
          obtain ⟨tp', fp'⟩ := tf
          cases hz : endsZero line with
          | true =>
            simp only [readValidation, hH, hco, hrec, hz, Bool.false_eq_true, if_false,
              if_true, Option.some.injEq, Prod.mk.injEq] at h
            obtain ⟨rfl, rfl⟩ := h
            obtain ⟨h1, h2⟩ := ih _ _ hrec
            refine ⟨fun co => ?_, fun co => ?_⟩
            · rw [Finset.mem_insert, h1 co]
              constructor
              · rintro (rfl | ⟨l, hl, hp⟩)
                · exact ⟨line, List.mem_cons_self _ _, hH, hco, hz⟩
                · exact ⟨l, List.mem_cons_of_mem _ hl, hp⟩
              · rintro ⟨l, hl, hns, hco', hz'⟩
                rcases List.mem_cons.mp hl with rfl | hl'
                · rw [hco] at hco'
                  exact Or.inl (Option.some.inj hco').symm
                · exact Or.inr ⟨l, hl', hns, hco', hz'⟩
            · rw [h2 co]
              constructor
              · rintro ⟨l, hl, hp⟩
                exact ⟨l, List.mem_cons_of_mem _ hl, hp⟩
              · rintro ⟨l, hl, hns, hco', hz'⟩
                rcases List.mem_cons.mp hl with rfl | hl'
                · rw [hz'] at hz
                  cases hz
                · exact ⟨l, hl', hns, hco', hz'⟩
          | false =>
            simp only [readValidation, hH, hco, hrec, hz, Bool.false_eq_true, if_false,
              Option.some.injEq, Prod.mk.injEq] at h
            obtain ⟨rfl, rfl⟩ := h
            obtain ⟨h1, h2⟩ := ih _ _ hrec
            refine ⟨fun co => ?_, fun co => ?_⟩
            · rw [h1 co]
              constructor
              · rintro ⟨l, hl, hp⟩
                exact ⟨l, List.mem_cons_of_mem _ hl, hp⟩
              · rintro ⟨l, hl, hns, hco', hz'⟩
                rcases List.mem_cons.mp hl with rfl | hl'
                · rw [hz'] at hz
                  cases hz
                · exact ⟨l, hl', hns, hco', hz'⟩
            · rw [Finset.mem_insert, h2 co]
              constructor
              · rintro (rfl | ⟨l, hl, hp⟩)
                · exact ⟨line, List.mem_cons_self _ _, hH, hco, hz⟩
                · exact ⟨l, List.mem_cons_of_mem _ hl, hp⟩
              · rintro ⟨l, hl, hns, hco', hz'⟩
                rcases List.mem_cons.mp hl with rfl | hl'
                · rw [hco] at hco'
                  exact Or.inl (Option.some.inj hco').symm
                · exact Or.inr ⟨l, hl', hns, hco', hz'⟩

/-- Claim C4 amended witness: scenario A's truth file routes (chr1, 100)
(line ends in `1`) to the true-positive set and (chr1, 200) (line ends in
`0`) to the false-positive set, with the header skipped. -/
theorem readValidation_routing_witness :
    ∃ tpc fpc, readValidation [exHeader, exValTp, exValFp] = some (tpc, fpc) ∧
      exCoord100 ∈ tpc ∧ exCoord200 ∈ fpc := by
  have hrun : readValidation [exHeader, exValTp, exValFp] =
      some ({exCoord100}, {exCoord200}) := by decide
  have hr := readValidation_routing _ _ _ hrun
  refine ⟨_, _, hrun, ?_, ?_⟩
  · exact (hr.2 exCoord100).mpr ⟨exValTp, by simp, by decide, by decide, by decide⟩
  · exact (hr.1 exCoord200).mpr ⟨exValFp, by simp, by decide, by decide, by decide⟩

end BcbioVariation
